import Mathlib

/-!
Shallow embedding of `src/packages/pond/lib/collection.js` (the pond
`Collection` class) together with the external contracts it consumes.

Modelling conventions:
* The key of an Event (a `Time`, `Index` or `TimeRange` object in the source) is
  consumed by the Collection only through `getKey().toString()` and
  `getKey().timestamp()` (`e.timestamp()` delegates to the key).  We model a
  key as a record `EKey` holding its string serialization `str` and its
  numeric timestamp `ts` (epoch milliseconds, an `Int`).
* Field values (JS numbers held in the data map of an Event) are modelled as
  exact rationals `JNum` (an unnormalized fraction of integers, kept
  kernel-computable; the float accumulation in `quantile` is modelled
  exactly).  `Event.get` returns `Option JNum`: `none` models JS
  `undefined` (missing field); where the source coerces with `+`, a missing
  value becomes NaN, which we also model as `none` and propagate through
  arithmetic.
* `Immutable.Map` (the `_keyMap`) is modelled as an association list
  `List (String × List ℕ)`; `Immutable.Set` of positions as a duplicate-free
  `List ℕ` in insertion order (`Set.add` appends if absent).
* JS runtime type errors (calling `.map`/`.has` on `undefined`) are modelled
  by returning `none` from an `Option`-valued function.
* Methods of the base class `Collection` never assign to `this._events` or
  `this._keyMap` (only the constructor and `clone` write fields, on a fresh
  object); each method is therefore a pure function of the receiver.  For the
  immutability claim we additionally provide "method forms" returning the
  pair (receiver state after the call, return value).
-/

/-- A JS number, modelled as the exact rational `n / d`.  Every value
constructed by the model keeps `d > 0`; values are compared semantically
(by cross-multiplication) wherever the source compares numbers, so
normalization is unnecessary and every operation reduces in the kernel. -/
structure JNum where
  n : Int
  d : Int
deriving DecidableEq, Repr

/-- The integer `i` as a `JNum`. -/
def JNum.ofInt (i : Int) : JNum :=
  ⟨i, 1⟩

instance (k : ℕ) : OfNat JNum k :=
  ⟨⟨(k : Int), 1⟩⟩

instance : Add JNum :=
  ⟨fun a b => ⟨a.n * b.d + b.n * a.d, a.d * b.d⟩⟩

instance : Sub JNum :=
  ⟨fun a b => ⟨a.n * b.d - b.n * a.d, a.d * b.d⟩⟩

instance : Mul JNum :=
  ⟨fun a b => ⟨a.n * b.n, a.d * b.d⟩⟩

instance : Div JNum :=
  ⟨fun a b => ⟨a.n * b.d, a.d * b.n⟩⟩

/-- JS `<` on numbers (valid for positive denominators). -/
def JNum.blt (a b : JNum) : Bool :=
  decide (a.n * b.d < b.n * a.d)

/-- JS `===` on numbers (semantic equality of fractions). -/
def JNum.beq (a b : JNum) : Bool :=
  decide (a.n * b.d = b.n * a.d)

/-- Model of `Math.floor` (valid for positive denominators). -/
def JNum.floor (a : JNum) : Int :=
  a.n.fdiv a.d

/-- The part of the external key contract (Time / Index / TimeRange) that
`Collection` consumes: `toString()` and `timestamp()` (as a number). -/
structure EKey where
  str : String
  ts : Int
deriving DecidableEq, Repr

/-- The part of the external `Event` contract that `Collection` consumes:
`getKey()` and the data map read via `get(field)`.  Dotted field paths are
modelled as flat field names (no claim exercises nesting). -/
structure Event where
  key : EKey
  data : List (String × JNum)
deriving DecidableEq, Repr

/-- Model of `event.get(fieldPath)`: the raw data value, `undefined` (`none`) when the
field is missing. -/
def Event.get (e : Event) (field : String) : Option JNum :=
  e.data.lookup field

/-- Model of `event.timestamp()` = `event.getKey().timestamp()`. -/
def Event.timestamp (e : Event) : Int :=
  e.key.ts

/-- The `_keyMap` field: an `Immutable.Map<string, Immutable.Set<number>>`,
modelled as an association list (at most one binding per key string). -/
abbrev KeyMap : Type := List (String × List ℕ)

/-- Model of `Immutable.Map.get(k)`: `some` the bound value, `none` (= JS `undefined`)
when the key is absent. -/
def kmGet : KeyMap → String → Option (List ℕ)
  | [], _ => none
  | (k', v) :: rest, k => if k' = k then some v else kmGet rest k

/-- Model of `Immutable.Map.has(k)`. -/
def kmHas (m : KeyMap) (k : String) : Bool :=
  (kmGet m k).isSome

/-- Model of `Immutable.Map.set(k, v)`: replace the binding for `k` (or add one). -/
def kmSet : KeyMap → String → List ℕ → KeyMap
  | [], k, v => [(k, v)]
  | (k', v') :: rest, k, v =>
      if k' = k then (k, v) :: rest else (k', v') :: kmSet rest k v

/-- Model of `Immutable.Map.remove(k)`. -/
def kmRemove (m : KeyMap) (k : String) : KeyMap :=
  m.filter (fun p => !(p.1 == k))

/-- Model of `Immutable.Set.add(i)`: sets keep insertion order and ignore duplicates. -/
def setAdd (s : List ℕ) (i : ℕ) : List ℕ :=
  if i ∈ s then s else s ++ [i]

/-- The `Collection` class state: `_events` (an `Immutable.List<Event>`) and
`_keyMap`. -/
structure Collection where
  events : List Event
  keyMap : KeyMap
deriving DecidableEq

/-- Model of `new Collection()` with no argument: empty list, empty map. -/
def emptyCollection : Collection :=
  ⟨[], []⟩

/-- Model of `Collection.buildKeyMap(events)`: one pass over the list; for each
position `i` with key string `k`, add `i` to the set at `k` (a fresh
singleton set when absent). -/
def buildKeyMap (events : List Event) : KeyMap :=
  events.enum.foldl
    (fun keyMap p =>
      let k := p.2.key.str
      let indicies := match kmGet keyMap k with
        | some s => setAdd s p.1
        | none => [p.1]
      kmSet keyMap k indicies)
    []

/-- Model of `new Collection(immutableList)`: adopt the list, build the key map
eagerly. -/
def ofList (l : List Event) : Collection :=
  ⟨l, buildKeyMap l⟩

/-- Model of `Collection.size()`. -/
def Collection.size (c : Collection) : ℕ :=
  c.events.length

/-- Model of `Collection.isEmpty()`. -/
def Collection.isEmpty (c : Collection) : Bool :=
  c.size == 0

/-- Model of `Collection.toJSON()`: `this._events.toJS()`, a plain ordered dump of the
event list; we model it as the list itself. -/
def Collection.toJSON (c : Collection) : List Event :=
  c.events

/-- Model of `Collection.eventList()`: `this._events.toList()`. -/
def Collection.eventList (c : Collection) : List Event :=
  c.events

/-- Model of `Collection.atKey(key)` as written in the source:
`this._keyMap.get(key.toString())` is `undefined` when the key is not
indexed, and the subsequent `indexes.map(...)` then throws a `TypeError`;
the whole call is modelled as `none` in that case.  Stale indices produce
`this._events.get(i) === undefined`, modelled as `none` entries of the
returned list. -/
def Collection.atKey (c : Collection) (k : String) : Option (List (Option Event)) :=
  match kmGet c.keyMap k with
  | none => none
  | some indexes => some (indexes.map (fun i => c.events.get? i))

/-- The dedup argument of `addEvent`: absent/falsy, the boolean replace
mode, or a merge function.  The merge function receives the conflicting
events (entries may be `undefined` when the key map is stale) followed by
the new event. -/
inductive Dedup where
  | nodedup
  | replace
  | fn (f : List (Option Event) → Event)

/-- Truthiness of the `dedup` argument. -/
def Dedup.truthy : Dedup → Bool
  | .nodedup => false
  | _ => true

/-- The common tail of `addEvent`: push `e`, run `onEventAdded` (the base
class returns the list unchanged, so the reference-equality test succeeds
and the incremental branch is always taken: add the last position to
`indicies` and set it for `k`), then `clone`. -/
def finishAdd (c : Collection) (k : String) (events : List Event)
    (e : Event) (indicies : List ℕ) : Collection :=
  let newEvents := events ++ [e]
  let indicies2 := setAdd indicies (newEvents.length - 1)
  ⟨newEvents, kmSet c.keyMap k indicies2⟩

/-- The initialization of the local `indicies` in `addEvent`:
`this._keyMap.has(k) ? this._keyMap.get(k) : Immutable.Set()`. -/
def getIndicies (m : KeyMap) (k : String) : List ℕ :=
  match kmGet m k with
  | some s => s
  | none => []

/-- Model of `Collection.addEvent(event, dedup)`.  When `dedup` is truthy the source
calls `this.atKey(event.getKey())`, which throws (modelled `none`) if the
key is not in the key map.  When conflicts exist, all events whose key
stringifies to `k` are filtered out of the sequence, a merge function
replaces the event with `dedup(conflicts ++ [event])`, and the indices set
for `k` is reset to a singleton of the new last position. -/
def Collection.addEvent (c : Collection) (event : Event) (dedup : Dedup) :
    Option Collection :=
  let k := event.key.str
  let indicies : List ℕ := getIndicies c.keyMap k
  if dedup.truthy then
    match c.atKey k with
    | none => none
    | some conflicts =>
      if 0 < conflicts.length then
        let events := c.events.filter (fun duplicate => !(duplicate.key.str == k))
        let e := match dedup with
          | .fn f => f (conflicts ++ [some event])
          | _ => event
        some (finishAdd c k events e [])
      else
        some (finishAdd c k c.events event indicies)
  else
    some (finishAdd c k c.events event indicies)

/-- Model of `Collection.removeEvents(key)` as written in the source:
`indices = this._keyMap.get(k)` is `undefined` when the key is not indexed;
`filterNot((event, i) => indices.has(i))` then throws a `TypeError` on the
first element (modelled `none`) — unless the event list is empty, in which
case the predicate never runs and the call succeeds. -/
def Collection.removeEvents (c : Collection) (k : String) : Option Collection :=
  match kmGet c.keyMap k with
  | some indices =>
      let events := (c.events.enum.filter (fun p => !(decide (p.1 ∈ indices)))).map (·.2)
      some ⟨events, kmRemove c.keyMap k⟩
  | none =>
      if c.events.isEmpty then some ⟨c.events, kmRemove c.keyMap k⟩
      else none

/-- Model of `Collection.setEvents(events)`: replace the event list; the source
rebuilds the key map with a loop textually identical to `buildKeyMap`. -/
def Collection.setEvents (c : Collection) (events : List Event) : Collection :=
  ⟨events, buildKeyMap events⟩

/-- Model of `Collection.takeLast(amount)`: `Immutable.List.takeLast` keeps the last
`amount` entries; the key map is rebuilt. -/
def Collection.takeLast (c : Collection) (amount : ℕ) : Collection :=
  let events := c.events.drop (c.events.length - amount)
  ⟨events, buildKeyMap events⟩

/-- Resolve a JS slice bound against a list length: negative indices count
from the end, then the result is clamped to `[0, len]`. -/
def jsSliceIndex (len : ℕ) (i : Int) : ℕ :=
  if i < 0 then ((len : Int) + i).toNat else min i.toNat len

/-- Model of `Immutable.List.slice(begin, end)` with both bounds supplied. -/
def jsSlice (l : List Event) (b e : Int) : List Event :=
  (l.take (jsSliceIndex l.length e)).drop (jsSliceIndex l.length b)

/-- Model of `Collection.slice(begin, end)` = `setEvents(this._events.slice(begin, end))`. -/
def Collection.slice (c : Collection) (b e : Int) : Collection :=
  c.setEvents (jsSlice c.events b e)

/-- Model of `Collection.rest()` = `setEvents(this._events.rest())` (drop the first). -/
def Collection.rest (c : Collection) : Collection :=
  c.setEvents (c.events.drop 1)

/-- JS `<` on sort keys that may be `undefined`: any comparison involving
`undefined` is false (NaN semantics). -/
def jsLt : Option JNum → Option JNum → Bool
  | some a, some b => a.blt b
  | _, _ => false

/-- Insert `a` into the already-sorted `l`, strictly before the first
element whose key compares greater — hence after every element with an
equal (or incomparable) key, which is what makes the sort stable. -/
def insertBy {κ : Type} (lt : κ → κ → Bool) (key : Event → κ) (a : Event) :
    List Event → List Event
  | [] => [a]
  | b :: l => if lt (key a) (key b) then a :: b :: l else b :: insertBy lt key a l

/-- Model of `Immutable.sortBy(keyFn)`: a stable sort with the default comparator
(`a > b ? 1 : a < b ? -1 : 0`, ties broken by original position).  We model
it as a stable insertion sort; for totally comparable keys (the only case
the claims exercise, and the only case in which the JS comparator is
consistent) this coincides with the stable sort of the source. -/
def jsSortBy {κ : Type} (l : List Event) (key : Event → κ) (lt : κ → κ → Bool) :
    List Event :=
  l.foldl (fun acc e => insertBy lt key e acc) []

/-- Model of `Collection.sort(field)`: stable sort ascending by `event.get(field)`
(dotted paths modelled as flat field names), result wrapped in a new
Collection (key map rebuilt by the constructor). -/
def Collection.sort (c : Collection) (field : String) : Collection :=
  ofList (jsSortBy c.events (fun event => event.get field) jsLt)

/-- Model of `Collection.sortByKey()`: stable sort ascending by
`+event.getKey().timestamp()`. -/
def Collection.sortByKey (c : Collection) : Collection :=
  ofList (jsSortBy c.events (fun event => event.key.ts) (fun a b => decide (a < b)))

/-- Model of `Collection.map(mapper)` = `new Collection(Immutable.List(this._events.map(mapper)))`. -/
def Collection.map (c : Collection) (mapper : Event → Event) : Collection :=
  ofList (c.events.map mapper)

/-- Model of `Collection.flatMap(mapper)`. -/
def Collection.flatMap (c : Collection) (mapper : Event → List Event) : Collection :=
  ofList (c.events.flatMap mapper)

/-- Model of `Collection.mapKeys(mapper)`: rebuild each event with the remapped key
and the same data. -/
def Collection.mapKeys (c : Collection) (mapper : EKey → EKey) : Collection :=
  ofList (c.events.map (fun event => ⟨mapper event.key, event.data⟩))

/-- Model of `Immutable.List.get(pos)`: a negative index counts back from the end
(`wrapIndex` adds the size once); out-of-range gives `undefined`. -/
def listGet (l : List Event) (pos : Int) : Option Event :=
  let index := if pos < 0 then pos + l.length else pos
  if index < 0 then none else l.get? index.toNat

/-- Model of `Collection.at(pos)` = `this.eventList().get(pos)`. -/
def Collection.at (c : Collection) (pos : Int) : Option Event :=
  listGet c.eventList pos

/-- The JS local `t` of `isChronological`: it starts `undefined`, holds the
number `e.timestamp().getTime()` after the first branch, and holds the
`Date` object `e.timestamp()` after the comparison branch.  `!t` is true for
`undefined` and for the number `0`, but never for a `Date` object. -/
inductive TVal where
  | undef
  | num (n : Int)
  | date (n : Int)
deriving DecidableEq

/-- JS falsiness of `t`. -/
def TVal.falsy : TVal → Bool
  | .undef => true
  | .num n => n == 0
  | .date _ => false

/-- Numeric coercion of `t` for the comparison `e.timestamp() < t` (a `Date`
coerces to its epoch value).  Only reached when `t` is truthy. -/
def TVal.toNum : TVal → Int
  | .undef => 0
  | .num n => n
  | .date n => n

/-- One iteration of the `forEach` body of `isChronological`. -/
def isChronoStep (acc : Bool × TVal) (e : Event) : Bool × TVal :=
  let result := acc.1
  let t := acc.2
  if t.falsy then
    (result, .num e.timestamp)
  else
    ((if e.timestamp < t.toNum then false else result), .date e.timestamp)

/-- Model of `Collection.isChronological()`. -/
def Collection.isChronological (c : Collection) : Bool :=
  (c.events.foldl isChronoStep (true, .undef)).1

/-- JS `undefined`/NaN-propagating arithmetic on field values. -/
def jadd : Option JNum → Option JNum → Option JNum
  | some a, some b => some (a + b)
  | _, _ => none

/-- NaN-propagating subtraction. -/
def jsub : Option JNum → Option JNum → Option JNum
  | some a, some b => some (a - b)
  | _, _ => none

/-- NaN-propagating multiplication by a plain number. -/
def jmulq (a : Option JNum) (q : JNum) : Option JNum :=
  match a with
  | some a => some (a * q)
  | none => none

/-- NaN-propagating halving. -/
def jhalf : Option JNum → Option JNum
  | some a => some (a / 2)
  | none => none

/-- Modelled from the spec: the `InterpolationType` enum exported by
`functions.js`, which is not under `src/`.  Per the spec, the branch in
`quantile` tests the constant values of the enum themselves for truthiness
(rather than the caller-supplied `interp` parameter), which would make the
linear branch structurally unreachable except via fallthrough ordering —
i.e. the constants (in particular `lower`) are truthy.  We model them as the
nonzero numeric values 1–5 in declaration order. -/
inductive InterpolationType where
  | linear
  | lower
  | higher
  | nearest
  | midpoint
deriving DecidableEq

/-- Modelled from the spec: the numeric value of each enum constant
(nonzero, hence truthy). -/
def InterpolationType.val : InterpolationType → ℕ
  | .linear => 1
  | .lower => 2
  | .higher => 3
  | .nearest => 4
  | .midpoint => 5

/-- JS truthiness of a number. -/
def numTruthy (n : ℕ) : Bool :=
  n != 0

/-- The interpolation branch of `quantile`, exactly as written in the
source: each condition tests an enum *constant* for truthiness, never the
`interp` parameter, so the first branch always fires and yields `v0`.
If every test were falsy, `v` would stay `undefined` (`none`). -/
def quantileCombine (fraction : JNum) (v0 v1 : Option JNum) : Option JNum :=
  if numTruthy InterpolationType.lower.val || fraction.beq 0 then
    v0
  else if numTruthy InterpolationType.linear.val then
    jadd v0 (jmulq (jsub v1 v0) fraction)
  else if numTruthy InterpolationType.higher.val then
    v1
  else if numTruthy InterpolationType.nearest.val then
    (if fraction.blt (1 / 2) then v0 else v1)
  else if numTruthy InterpolationType.midpoint.val then
    jhalf (jadd v0 v1)
  else
    none

/-- The loop of `quantile`: `for (i = 1/n; i < 1; i += 1/n)` visits exactly
`i = j/n` for `j = 1 .. n-1` (for `n = 0` the JS loop starts at `Infinity`
and runs zero times; our empty range agrees).  The source pushes a value
only when `index < size - 1`.  The float accumulation of `i` is modelled
exactly as the rational `j / n`. -/
def quantileLoop (sorted : Collection) (column : String) (n : ℕ) :
    List (Option JNum) :=
  ((List.range (n - 1)).map (fun j : ℕ => j + 1)).filterMap (fun j =>
    let i : JNum := JNum.ofInt (j : Int) / JNum.ofInt (n : Int)
    let sizeM1 : JNum := JNum.ofInt (sorted.size : Int) - 1
    let index : Int := (sizeM1 * i).floor
    if index < (sorted.size : Int) - 1 then
      let fraction : JNum := sizeM1 * i - JNum.ofInt index
      let v0 := (sorted.at index).bind (fun e => e.get column)
      let v1 := (sorted.at (index + 1)).bind (fun e => e.get column)
      some (quantileCombine fraction v0 v1)
    else none)

/-- Model of `Collection.quantile(n, column, interp)`: sort by `column`, throw when
`n > this.size()` (modelled as `Except.error ()`), otherwise run the loop.
Note the `interp` parameter is never read by the branch (see
`quantileCombine`), faithfully to the source. -/
def Collection.quantile (c : Collection) (n : ℕ) (column : String)
    (interp : InterpolationType) : Except Unit (List (Option JNum)) :=
  let sorted := c.sort column
  if c.size < n then
    Except.error ()
  else
    Except.ok (quantileLoop sorted column n)

/-- Whether an `Except` is the thrown-error outcome. -/
def isErr {ε α : Type} : Except ε α → Bool
  | .error _ => true
  | .ok _ => false

/-- The external stream-processor contract (`Collapse`): a processor holds
internal state of some type `σ`; `addEvent` consumes one event and (for
`Collapse`) returns exactly one output event together with its next state.
`Collection.collapse` maps the events through one processor instance in
sequence order (the JS closure over `p` is the state threading). -/
def statefulMap {σ : Type} (step : σ → Event → σ × Event) :
    σ → List Event → List Event
  | _, [] => []
  | s, e :: rest =>
      let r := step s e
      r.2 :: statefulMap step r.1 rest

/-- Model of `Collection.collapse(options)` = `this.map(e => p.addEvent(e))` for a
fresh `Collapse` processor `p` (modelled by its step function and initial
state); `map` wraps the mapped list in a new Collection. -/
def Collection.collapse {σ : Type} (c : Collection)
    (step : σ → Event → σ × Event) (s0 : σ) : Collection :=
  ofList (statefulMap step s0 c.events)

/-- Checks the key-index consistency invariant: every position `i` of the
event list is recorded in the key map under (exactly) the own key of the event
string, and every recorded position points at an event with that key. -/
def keyConsistentB (c : Collection) : Bool :=
  ((List.range c.events.length).all (fun i =>
      match c.events.get? i with
      | some e =>
          (match kmGet c.keyMap e.key.str with
           | some s => decide (i ∈ s)
           | none => false)
      | none => true))
  && (c.keyMap.all (fun p => p.2.all (fun i =>
      match c.events.get? i with
      | some e => e.key.str == p.1
      | none => false)))

/-!
Method forms for the immutability claim.  In the source, only the
constructor and `clone` assign `this._events` / `this._keyMap`, and `clone`
assigns them on a freshly constructed object; no listed method writes any
field of the receiver.  Each method form returns the pair
(receiver state after the call, return value of the call); the receiver
component is the unmodified receiver, reflecting the absence of any field
write in the method body. -/

/-- Method form of `addEvent`. -/
def Collection.addEventM (c : Collection) (e : Event) (d : Dedup) :
    Collection × Option Collection :=
  (c, c.addEvent e d)

/-- Method form of `removeEvents`. -/
def Collection.removeEventsM (c : Collection) (k : String) :
    Collection × Option Collection :=
  (c, c.removeEvents k)

/-- Method form of `setEvents`. -/
def Collection.setEventsM (c : Collection) (l : List Event) :
    Collection × Collection :=
  (c, c.setEvents l)

/-- Method form of `takeLast`. -/
def Collection.takeLastM (c : Collection) (n : ℕ) : Collection × Collection :=
  (c, c.takeLast n)

/-- Method form of `slice`. -/
def Collection.sliceM (c : Collection) (b e : Int) : Collection × Collection :=
  (c, c.slice b e)

/-- Method form of `rest`. -/
def Collection.restM (c : Collection) : Collection × Collection :=
  (c, c.rest)

/-- Method form of `sort`. -/
def Collection.sortM (c : Collection) (field : String) : Collection × Collection :=
  (c, c.sort field)

/-- Method form of `sortByKey`. -/
def Collection.sortByKeyM (c : Collection) : Collection × Collection :=
  (c, c.sortByKey)

/-- Method form of `map`. -/
def Collection.mapM (c : Collection) (g : Event → Event) : Collection × Collection :=
  (c, c.map g)

/-- Method form of `flatMap`. -/
def Collection.flatMapM (c : Collection) (g : Event → List Event) :
    Collection × Collection :=
  (c, c.flatMap g)

/-- Method form of `mapKeys`. -/
def Collection.mapKeysM (c : Collection) (g : EKey → EKey) :
    Collection × Collection :=
  (c, c.mapKeys g)

/-!
Concrete inputs used by the claim theorems.
-/

/-- An event with key string "a". -/
def evA : Event := ⟨⟨"a", 10⟩, [("value", 1)]⟩

/-- An event with key string "b". -/
def evB : Event := ⟨⟨"b", 20⟩, [("value", 2)]⟩

/-- An event with no data, for timestamp examples. -/
def mkEv (s : String) (t : Int) : Event := ⟨⟨s, t⟩, []⟩

/-- An event carrying only a "value" field, for quantile examples. -/
def qev (q : JNum) : Event := ⟨⟨"e", 0⟩, [("value", q)]⟩

/-- Ten events with values 1..10 (already ascending). -/
def qex : Collection :=
  ofList [qev 1, qev 2, qev 3, qev 4, qev 5, qev 6, qev 7, qev 8, qev 9, qev 10]

/-!
Helper lemmas (shared).
-/

theorem kmGet_kmSet_self (m : KeyMap) (k : String) (v : List ℕ) :
    kmGet (kmSet m k v) k = some v := by
  induction m with
  | nil => simp [kmSet, kmGet]
  | cons p rest ih =>
    by_cases h : p.1 = k
    · simp [kmSet, h, kmGet]
    · simpa [kmSet, h, kmGet] using ih

theorem addEvent_nodedup_eq (c : Collection) (e : Event) :
    c.addEvent e .nodedup
      = some ⟨c.events ++ [e],
          kmSet c.keyMap e.key.str
            (setAdd (getIndicies c.keyMap e.key.str) c.events.length)⟩ := by
  simp [Collection.addEvent, Dedup.truthy, finishAdd]

theorem setAdd_length_pos (s : List ℕ) (i : ℕ) : 0 < (setAdd s i).length := by
  unfold setAdd
  by_cases h : i ∈ s
  · simp only [if_pos h]
    exact List.length_pos.mpr (List.ne_nil_of_mem h)
  · simp [if_neg h]

theorem setAdd_nil (i : ℕ) : setAdd [] i = [i] := by
  simp [setAdd]

theorem statefulMap_length {σ : Type} (step : σ → Event → σ × Event) :
    ∀ (s : σ) (l : List Event), (statefulMap step s l).length = l.length := by
  intro s l
  induction l generalizing s with
  | nil => rfl
  | cons e rest ih => simp [statefulMap, ih]

/-!
Claim theorems.
-/

/-- Claim C1 (evaluation of the code at the failing input): the key-index
consistency invariant does **not** survive `removeEvents`.  Starting from the
list-built Collection `[evA (key "a"), evB (key "b")]` — which is consistent —
`removeEvents("a")` filters `evA` out of the sequence, so `evB` moves to
position 0, but the key map keeps the stale entry `"b" ↦ {1}`. -/
theorem removeEvents_leaves_stale_keyMap :
    (ofList [evA, evB]).removeEvents "a" = some ⟨[evB], [("b", [1])]⟩ ∧
    ((ofList [evA, evB]).removeEvents "a").map keyConsistentB = some false ∧
    keyConsistentB (ofList [evA, evB]) = true := by
  refine ⟨by decide, by decide, by decide⟩

/-- Claim C2 (evaluation of the code at the failing input): `quantile`
ignores the caller-supplied interpolation mode because its branch tests the
(truthy) enum constants.  On values 1..10 with `n = 4` and mode `linear` it
returns the lower values `[3, 5, 7]`, not the linearly interpolated
`[3.25, 5.5, 7.75]` the claim requires. -/
theorem quantile_ignores_interpolation_mode :
    Collection.quantile qex 4 "value" InterpolationType.linear
      = Except.ok [some 3, some 5, some 7] ∧
    JNum.beq 3 (⟨13, 4⟩ : JNum) = false ∧
    JNum.beq 5 (⟨11, 2⟩ : JNum) = false ∧
    JNum.beq 7 (⟨31, 4⟩ : JNum) = false := by
  refine ⟨rfl, by decide, by decide, by decide⟩

/-- Claim C3: dedup semantics of `addEvent`.  For any Collection `c`,
inserting `e1` (no dedup) and then `e2` with the same key string under
boolean replace-mode dedup leaves `atKey` for that key with exactly the one
event `e2`; if additionally `c` had no key-map entry for that key, inserting
`e2` under merge-function dedup leaves exactly the one event
`f [e1, e2]` (prior conflict first, new event last; the `some` wrappers
record that conflict entries are drawn from the sequence and can in general
be `undefined`). -/
theorem addEvent_dedup_semantics (c : Collection) (e1 e2 : Event)
    (f : List (Option Event) → Event) (hk : e2.key.str = e1.key.str) :
    ((c.addEvent e1 .nodedup).bind fun c1 =>
        (c1.addEvent e2 .replace).bind fun c2 => c2.atKey e1.key.str)
      = some [some e2] ∧
    (kmGet c.keyMap e1.key.str = none →
      ((c.addEvent e1 .nodedup).bind fun c1 =>
          (c1.addEvent e2 (.fn f)).bind fun c2 => c2.atKey e1.key.str)
        = some [some (f [some e1, some e2])]) := by
  constructor
  · simp only [addEvent_nodedup_eq]
    simp [Collection.addEvent, Collection.atKey, Dedup.truthy, finishAdd, hk,
      kmGet_kmSet_self, setAdd_length_pos, setAdd_nil, List.getElem?_concat_length]
  · intro h0
    simp only [addEvent_nodedup_eq]
    simp [Collection.addEvent, Collection.atKey, Dedup.truthy, finishAdd, hk,
      kmGet_kmSet_self, setAdd_length_pos, setAdd_nil, List.getElem?_concat_length,
      getIndicies, h0]

/-- The first event of the C3 witness. -/
def e1w : Event := ⟨⟨"k", 100⟩, [("value", 5)]⟩

/-- The second event of the C3 witness (same key string as `e1w`). -/
def e2w : Event := ⟨⟨"k", 100⟩, [("value", 7)]⟩

/-- A concrete merge function for the C3 witness. -/
def fw : List (Option Event) → Event :=
  fun _ => ⟨⟨"k", 100⟩, [("value", 12)]⟩

/-- Witness for C3 at the empty Collection. -/
theorem addEvent_dedup_semantics_witness :
    e2w.key.str = e1w.key.str ∧
    kmGet emptyCollection.keyMap e1w.key.str = none ∧
    ((emptyCollection.addEvent e1w .nodedup).bind fun c1 =>
        (c1.addEvent e2w .replace).bind fun c2 => c2.atKey e1w.key.str)
      = some [some e2w] ∧
    ((emptyCollection.addEvent e1w .nodedup).bind fun c1 =>
        (c1.addEvent e2w (.fn fw)).bind fun c2 => c2.atKey e1w.key.str)
      = some [some (fw [some e1w, some e2w])] :=
  ⟨by decide, by decide,
   (addEvent_dedup_semantics emptyCollection e1w e2w fw (by decide)).1,
   (addEvent_dedup_semantics emptyCollection e1w e2w fw (by decide)).2 (by decide)⟩

/-- Claim C4: `quantile(n, column, interp)` reports the documented error
exactly when `n` exceeds the size of the Collection; for `n ≤ size` the
computation completes without error (the model is total on that branch). -/
theorem quantile_error_iff_n_gt_size (c : Collection) (n : ℕ) (column : String)
    (interp : InterpolationType) :
    isErr (c.quantile n column interp) = true ↔ c.size < n := by
  by_cases h : c.size < n <;> simp [Collection.quantile, isErr, h]

/-- Claim C5: immutability of snapshots.  Every listed operation, in method
form (returning the state of the receiver after the call together with the
return value), leaves the receiver exactly as it was — hence `size()`, `toJSON()`
and `atKey(k)` on the prior snapshot are unchanged.  This reflects that no
method body assigns `this._events` or `this._keyMap`. -/
theorem methods_leave_receiver_unchanged (c : Collection) (e : Event) (d : Dedup)
    (k field : String) (n : ℕ) (b en : Int) (l : List Event)
    (g : Event → Event) (gf : Event → List Event) (gk : EKey → EKey) :
    (c.addEventM e d).1 = c ∧ (c.removeEventsM k).1 = c ∧
    (c.setEventsM l).1 = c ∧ (c.takeLastM n).1 = c ∧ (c.sliceM b en).1 = c ∧
    c.restM.1 = c ∧ (c.sortM field).1 = c ∧ c.sortByKeyM.1 = c ∧
    (c.mapM g).1 = c ∧ (c.flatMapM gf).1 = c ∧ (c.mapKeysM gk).1 = c :=
  ⟨rfl, rfl, rfl, rfl, rfl, rfl, rfl, rfl, rfl, rfl, rfl⟩

/-- Claim C6 (evaluation of the code at the failing input): the local `t` of
`isChronological` is tested with JS `!t`, which is also true for the *number*
0, so a leading event whose key timestamp is exactly the Unix epoch (0) is
treated as "unset" and the comparison with the next event is skipped: the
out-of-order timestamps `[0, -1]` still report `true`. -/
theorem isChronological_epoch_zero :
    (ofList [mkEv "x" 0, mkEv "y" (-1)]).isChronological = true ∧
    (mkEv "y" (-1)).timestamp < (mkEv "x" 0).timestamp := by
  refine ⟨by decide, by decide⟩

/-- Claim C7 (evaluation of the code at the failing input): `atKey` on a key
that is not in the key index does not yield an empty list — the source calls
`.map` on the `undefined` result of `keyMap.get`, a `TypeError`, modelled
here as `none`. -/
theorem atKey_unindexed_key_crashes :
    emptyCollection.atKey "a" = none ∧
    kmGet emptyCollection.keyMap "a" = none := by
  refine ⟨by decide, by decide⟩

/-- Claim C8 (evaluation of the code at the failing input): `removeEvents`
on an absent key is not no-op-safe — for a nonempty Collection the source
calls `.has` on the `undefined` result of `keyMap.get` inside `filterNot`, a
`TypeError`, modelled here as `none`.  (Only on an *empty* Collection does
the predicate never run, so that corner succeeds.) -/
theorem removeEvents_absent_key_crashes :
    (ofList [evB]).removeEvents "a" = none ∧
    kmGet (ofList [evB]).keyMap "a" = none ∧
    emptyCollection.removeEvents "a" = some emptyCollection := by
  refine ⟨by decide, by decide, by decide⟩

/-- Claim C9: `collapse` preserves the event count: it maps every event
through the processor (one output per input by the shape of `map`), so the
size of the result equals the size of the input for every processor step function and
initial state. -/
theorem collapse_preserves_size {σ : Type} (c : Collection)
    (step : σ → Event → σ × Event) (s0 : σ) :
    (c.collapse step s0).size = c.size := by
  simp [Collection.collapse, ofList, Collection.size, statefulMap_length]

/-- Claim C10 counterexample: `at(pos)` does **not** return an explicit
absence for every negative position — `Immutable.List.get` wraps negative
indices from the end, so `at(-1)` on a singleton Collection returns its
event. -/
theorem at_negative_position_counterexample :
    (ofList [evA]).at (-1) = some evA ∧ some evA ≠ (none : Option Event) := by
  refine ⟨by decide, by decide⟩

/-- Claim C10 as amended: positional access is total and never errors; for
`0 ≤ pos` it returns the event at `pos` (absence past the end), and for
`pos < 0` it returns the event at `size + pos` when that is nonnegative and
an explicit absence otherwise. -/
theorem at_total_with_negative_wrap (c : Collection) (pos : Int) :
    (0 ≤ pos → c.at pos = c.events.get? pos.toNat) ∧
    (pos < 0 →
      c.at pos =
        if 0 ≤ pos + (c.size : Int) then c.events.get? (pos + (c.size : Int)).toNat
        else none) := by
  constructor
  · intro h
    simp [Collection.at, listGet, Collection.eventList, not_lt.mpr h]
  · intro h
    by_cases h2 : pos + (c.events.length : Int) < 0
    · simp [Collection.at, listGet, Collection.eventList, Collection.size, h, h2,
        not_le.mpr h2]
    · simp [Collection.at, listGet, Collection.eventList, Collection.size, h, h2,
        not_lt.mp h2]

/-- Witness for the amended C10: a two-event Collection, read at positions
0 (in range) and -1 (negative, wrapped from the end). -/
theorem at_total_with_negative_wrap_witness :
    (0 : Int) ≤ 0 ∧
    (ofList [evA, evB]).at 0 = (ofList [evA, evB]).events.get? (0 : Int).toNat ∧
    (-1 : Int) < 0 ∧
    (ofList [evA, evB]).at (-1)
      = (if 0 ≤ (-1 : Int) + ((ofList [evA, evB]).size : Int)
         then (ofList [evA, evB]).events.get?
                ((-1 : Int) + ((ofList [evA, evB]).size : Int)).toNat
         else none) :=
  ⟨by decide,
   (at_total_with_negative_wrap (ofList [evA, evB]) 0).1 (by decide),
   by decide,
   (at_total_with_negative_wrap (ofList [evA, evB]) (-1)).2 (by decide)⟩
